import Mathlib

/-!
Verification development for the Agentic-Workflow-Builder frontend core.

The embedding covers the three logic-carrying pieces of the source:
the connection validator and graph store (src/store/workflow-store.tsx),
the payload serializer (src/lib/api.ts, generateWorkflowPayload) and the
streaming ingestion loop (src/lib/api.ts, callInvokeAPI).  JavaScript
strings are modelled as Lean strings, JS objects as structures with
Option-typed fields for possibly-undefined properties, and the zustand
store state as an explicit state record threaded through each operation.
-/

namespace AWB

/-- Node types, from the NodeData type union in workflow-store.tsx. -/
inductive NodeType where
  | START
  | END
  | LLMNode
  | ToolNode
  | A2ANode
deriving DecidableEq, Repr

/-- The string the serializer emits for each node type (the `type` tag). -/
def NodeType.toStr : NodeType → String
  | .START => "START"
  | .END => "END"
  | .LLMNode => "LLMNode"
  | .ToolNode => "ToolNode"
  | .A2ANode => "A2ANode"

/-- NodeData from workflow-store.tsx: name, type and an optional loose
parameter bag.  The bag is modelled as an association list of string keys to
string values; property access on it is association-list lookup, returning
none where JS yields undefined. -/
structure NodeData where
  name : String
  type : NodeType
  params : Option (List (String × String))
deriving DecidableEq, Repr

/-- A graph node.  Canvas-only fields of the reactflow Node (position, render
type, deletable) carry no core logic and are omitted. -/
structure Node where
  id : String
  data : NodeData
deriving DecidableEq, Repr

/-- A graph edge, from the reactflow Edge records built in onConnect:
id, endpoints, optional handles, plus the visual kind and animated flag the
store sets. -/
structure Edge where
  id : String
  source : String
  target : String
  sourceHandle : Option String
  targetHandle : Option String
  kind : String
  animated : Bool
deriving DecidableEq, Repr

/-- A candidate connection as reactflow hands it to isValidConnection and
onConnect: all four fields may be null. -/
structure Connection where
  source : Option String
  target : Option String
  sourceHandle : Option String
  targetHandle : Option String
deriving DecidableEq, Repr

/-- A chat message as the store manipulates it.  The store only ever reads
the fields type, content, node?.node_id and stream_type of the objects it
holds, so the embedding keeps exactly those; each is optional because the
incoming JSON may omit it. -/
structure ChatMessage where
  type : Option String
  content : Option String
  node_id : Option String
  stream_type : Option String
deriving DecidableEq, Repr

/-- JS string coercion of a string-or-undefined value, as used by the +
operator in streamMessage (undefined stringifies to "undefined"). -/
def jsStr : Option String → String
  | some s => s
  | none => "undefined"

/-- JS + on two string-or-undefined values: both coerced, concatenated. -/
def jsConcat (a b : Option String) : Option String :=
  some (jsStr a ++ jsStr b)

/-- The zustand store state: graph nodes, edges and the chat history
(selection and mode flags carry no logic relevant here). -/
structure StoreState where
  nodes : List Node
  edges : List Edge
  chatMessages : List ChatMessage
deriving DecidableEq, Repr

/-- addChatMessage from workflow-store.tsx: append one message. -/
def addChatMessage (st : StoreState) (message : ChatMessage) : StoreState :=
  { st with chatMessages := st.chatMessages ++ [message] }

/-- clearChatMessages from workflow-store.tsx: reset the history. -/
def clearChatMessages (st : StoreState) : StoreState :=
  { st with chatMessages := [] }

/-- The isSameStream test in streamMessage: the (node id, type, stream type)
triple of the last message equals the incoming chunk's. -/
def sameStream (lastMessage chunk : ChatMessage) : Prop :=
  lastMessage.node_id = chunk.node_id ∧
  lastMessage.type = chunk.type ∧
  lastMessage.stream_type = chunk.stream_type

instance (lastMessage chunk : ChatMessage) :
    Decidable (sameStream lastMessage chunk) := by
  unfold sameStream; infer_instance

/-- streamMessage from workflow-store.tsx: empty history gets the chunk as
its only entry; otherwise a chunk whose triple matches the last message
extends that message's content in place, and anything else is appended. -/
def streamMessage (st : StoreState) (chunk : ChatMessage) : StoreState :=
  if h : st.chatMessages = [] then
    { st with chatMessages := [chunk] }
  else
    let lastMessage := st.chatMessages.getLast h
    if sameStream lastMessage chunk then
      { st with chatMessages :=
          st.chatMessages.dropLast ++
            [{ lastMessage with content := jsConcat lastMessage.content chunk.content }] }
    else
      { st with chatMessages := st.chatMessages ++ [chunk] }

/-- Find a node by id, as nodes.find(node => node.id === source) does;
the comparison uses the connection's possibly-null id. -/
def findNode (nodes : List Node) (i : Option String) : Option Node :=
  nodes.find? (fun n => i = some n.id)

/-- isValidConnection from workflow-store.tsx, the same early-return chain:
missing endpoint or self-loop; START target or END source; Tool target;
a Tool source must hit an LLM's "target-tool" handle, a non-Tool source
must not; the "target-tool" slot and an LLM's "target-direct" slot each
admit at most one occupant. -/
def isValidConnection (nodes : List Node) (edges : List Edge)
    (c : Connection) : Bool :=
  match findNode nodes c.source, findNode nodes c.target with
  | some sourceNode, some targetNode =>
    if c.source = c.target then false
    else if targetNode.data.type = .START ∨ sourceNode.data.type = .END then false
    else if targetNode.data.type = .ToolNode then false
    else if sourceNode.data.type = .ToolNode ∧
        (targetNode.data.type ≠ .LLMNode ∨ c.targetHandle ≠ some "target-tool") then false
    else if sourceNode.data.type ≠ .ToolNode ∧ c.targetHandle = some "target-tool" then false
    else if c.targetHandle = some "target-tool" ∧
        edges.any (fun e => some e.target = c.target ∧ e.targetHandle = some "target-tool") then false
    else if targetNode.data.type = .LLMNode ∧ c.targetHandle = some "target-direct" ∧
        edges.any (fun e => some e.target = c.target ∧ e.targetHandle = some "target-direct") then false
    else true
  | _, _ => false

/-- The edge record onConnect builds from a connection (the fresh uuid is
passed in; the non-null assertions on source/target are modelled by getD). -/
def onConnectEdge (nodes : List Node) (c : Connection) (freshId : String) : Edge :=
  let sourceNode := findNode nodes c.source
  { id := freshId
    source := (c.source).getD ""
    target := (c.target).getD ""
    sourceHandle := c.sourceHandle
    targetHandle := c.targetHandle
    kind := if sourceNode.map (fun n => n.data.type) = some NodeType.ToolNode
            then "dashed" else "default"
    animated := sourceNode.map (fun n => n.data.type) ≠ some NodeType.ToolNode }

/-- reactflow's addEdge helper as onConnect uses it: the edge is appended
unless an edge with the same source, target and handles is already there. -/
def addEdgeRF (e : Edge) (edges : List Edge) : List Edge :=
  if edges.any (fun x => x.source = e.source ∧ x.target = e.target ∧
      x.sourceHandle = e.sourceHandle ∧ x.targetHandle = e.targetHandle)
  then edges
  else edges ++ [e]

/-- onConnect from workflow-store.tsx: build the edge and add it. -/
def onConnect (st : StoreState) (c : Connection) (freshId : String) : StoreState :=
  { st with edges := addEdgeRF (onConnectEdge st.nodes c freshId) st.edges }

/-- A connect call gated by the validator, as the canvas performs it: the
edge is materialized only when isValidConnection holds. -/
def gatedConnect (st : StoreState) (c : Connection) (freshId : String) : StoreState :=
  if isValidConnection st.nodes st.edges c then onConnect st c freshId else st

/-- reactflow's getConnectedEdges helper: the edges touching any of the
given nodes. -/
def getConnectedEdges (ns : List Node) (edges : List Edge) : List Edge :=
  edges.filter (fun e => ns.any (fun n => n.id = e.source ∨ n.id = e.target))

/-- deleteElements from workflow-store.tsx: drop the listed nodes, and drop
every edge whose id is either listed or belongs to an edge touching a
removed node. -/
def deleteElements (st : StoreState) (nodesToRemove : List Node)
    (edgesToRemove : List Edge) : StoreState :=
  let edgesToDelete := getConnectedEdges nodesToRemove st.edges
  let allEdgesToRemove := (edgesToRemove ++ edgesToDelete).map (fun e => e.id)
  { st with
    nodes := st.nodes.filter (fun n => ¬ nodesToRemove.any (fun ntr => ntr.id = n.id))
    edges := st.edges.filter (fun e => ¬ allEdgesToRemove.contains e.id) }

/-- Property access on the loose parameter bag: association-list lookup. -/
def getParam (params : List (String × String)) (k : String) : Option String :=
  (params.find? (fun p => p.1 = k)).map (fun p => p.2)

/-- Optional-chaining access node.data.params?.key: none when the whole bag
is absent or the key is missing. -/
def getParamOpt (params : Option (List (String × String))) (k : String) : Option String :=
  params.bind (fun ps => getParam ps k)

/-- The param_dict value generateWorkflowPayload builds, one shape per node
type that carries one (LLM, Tool, A2A). -/
inductive ParamDict where
  | llm (model_provider model api_key_name temperature system_prompt : Option String)
  | tool (tool_endpoint : Option String)
  | a2a (api_base_url : Option String)
deriving DecidableEq, Repr

/-- One element of the serialized nodes list.  param_dict = none models the
key being entirely absent from the emitted JSON object, which otherwise has
exactly the type, node_id and name fields. -/
structure NodePayload where
  type : String
  node_id : String
  name : String
  param_dict : Option ParamDict
deriving DecidableEq, Repr

/-- The per-node switch of generateWorkflowPayload in api.ts.  LLM reads its
five parameters from node.data.params || {}; Tool and A2A read one each via
optional chaining; START, END and the default branch emit no param_dict. -/
def serializeNode (node : Node) : NodePayload :=
  match node.data.type with
  | .LLMNode =>
    let params := (node.data.params).getD []
    { type := "LLMNode", node_id := node.id, name := node.data.name
      param_dict := some (ParamDict.llm
        (getParam params "modelProvider")
        (getParam params "model")
        (getParam params "apiKeyName")
        (getParam params "temperature")
        (getParam params "systemPrompt")) }
  | .ToolNode =>
    { type := "ToolNode", node_id := node.id, name := node.data.name
      param_dict := some (ParamDict.tool (getParamOpt node.data.params "toolEndpoint")) }
  | .A2ANode =>
    { type := "A2ANode", node_id := node.id, name := node.data.name
      param_dict := some (ParamDict.a2a (getParamOpt node.data.params "apiBaseUrl")) }
  | t =>
    { type := t.toStr, node_id := node.id, name := node.data.name
      param_dict := none }

/-- One element of the serialized connections list. -/
structure WorkflowConnection where
  type : String
  connection_id : String
  source_node_id : String
  destination_node_id : String
deriving DecidableEq, Repr

/-- The per-edge mapping of generateWorkflowPayload.  The source performs
nodes.find(...)! and dereferences the result unchecked; the none case models
the TypeError that a dangling source id would raise. -/
def serializeEdge (nodes : List Node) (edge : Edge) : Option WorkflowConnection :=
  match nodes.find? (fun n => n.id = edge.source) with
  | none => none
  | some sourceNode =>
    some { type := if sourceNode.data.type = NodeType.ToolNode
                   then "tool-connection" else "direct"
           connection_id := edge.id
           source_node_id := edge.source
           destination_node_id := edge.target }

/-- The connections list of the payload: total only when every edge's
source id resolves to a node. -/
def serializeConnections (nodes : List Node) (edges : List Edge) :
    Option (List WorkflowConnection) :=
  edges.mapM (serializeEdge nodes)

/-- The full serialized payload of generateWorkflowPayload; connections is
none when some edge's source lookup would crash. -/
structure WorkflowPayload where
  workflow_id : String
  name : String
  nodes : List NodePayload
  connections : List WorkflowConnection
deriving DecidableEq, Repr

/-- generateWorkflowPayload from api.ts, with the freshly minted uuid
passed in explicitly. -/
def generateWorkflowPayload (freshId : String) (st : StoreState) :
    Option WorkflowPayload :=
  match serializeConnections st.nodes st.edges with
  | none => none
  | some cs =>
    some { workflow_id := freshId
           name := "My Awesome Workflow"
           nodes := st.nodes.map serializeNode
           connections := cs }

/-- JSON whitespace (also the characters relevant to the JS trim calls the
stream loop makes). -/
def isWsChar (c : Char) : Bool :=
  c = ' ' ∨ c = '\n' ∨ c = '\t' ∨ c = '\r'

/-- Drop leading whitespace characters. -/
def dropWs : List Char → List Char
  | c :: rest => if isWsChar c then dropWs rest else c :: rest
  | [] => []

/-- JS String.prototype.trim: strip whitespace from both ends. -/
def jsTrim (cs : List Char) : List Char :=
  ((dropWs ((dropWs cs).reverse)).reverse)

/-- JSON values as JSON.parse yields them.  Numbers keep their lexeme; no
claim inspects a numeric value. -/
inductive Json where
  | null
  | bool (b : Bool)
  | num (lexeme : String)
  | str (s : String)
  | arr (elems : List Json)
  | obj (fields : List (String × Json))

/-- Value of a hex digit, for the \u escape. -/
def hexVal (c : Char) : Option Nat :=
  if '0' ≤ c ∧ c ≤ '9' then some (c.toNat - '0'.toNat)
  else if 'a' ≤ c ∧ c ≤ 'f' then some (c.toNat - 'a'.toNat + 10)
  else if 'A' ≤ c ∧ c ≤ 'F' then some (c.toNat - 'A'.toNat + 10)
  else none

/-- Body of a JSON string after the opening quote: literal characters and
the standard escapes, up to the closing quote. -/
def parseStringBody : List Char → List Char → Option (String × List Char)
  | acc, '"' :: rest => some (String.mk acc.reverse, rest)
  | acc, '\\' :: c :: rest =>
    match c with
    | '"' => parseStringBody ('"' :: acc) rest
    | '\\' => parseStringBody ('\\' :: acc) rest
    | '/' => parseStringBody ('/' :: acc) rest
    | 'n' => parseStringBody ('\n' :: acc) rest
    | 't' => parseStringBody ('\t' :: acc) rest
    | 'r' => parseStringBody ('\r' :: acc) rest
    | 'b' => parseStringBody (Char.ofNat 8 :: acc) rest
    | 'f' => parseStringBody (Char.ofNat 12 :: acc) rest
    | 'u' =>
      match rest with
      | h1 :: h2 :: h3 :: h4 :: rest2 =>
        match hexVal h1, hexVal h2, hexVal h3, hexVal h4 with
        | some a, some b, some d, some e =>
          parseStringBody (Char.ofNat (((a * 16 + b) * 16 + d) * 16 + e) :: acc) rest2
        | _, _, _, _ => none
      | _ => none
    | _ => none
  | acc, c :: rest => parseStringBody (c :: acc) rest
  | _, [] => none

/-- Leading decimal digits of the input, and what follows them. -/
def takeDigits : List Char → List Char × List Char
  | c :: rest =>
    if c.isDigit then
      let p := takeDigits rest
      (c :: p.1, p.2)
    else ([], c :: rest)
  | [] => ([], [])

/-- Optional exponent part of a number lexeme. -/
def parseExpPart (lexeme : List Char) (cs : List Char) : Option (String × List Char) :=
  match cs with
  | c :: r =>
    if c = 'e' ∨ c = 'E' then
      let p := (match r with
        | s :: r2 => if s = '+' ∨ s = '-' then ([s], r2) else (([] : List Char), r)
        | [] => ([], r))
      let d := takeDigits p.2
      if d.1.isEmpty then none
      else some (String.mk (lexeme ++ c :: p.1 ++ d.1), d.2)
    else some (String.mk lexeme, c :: r)
  | [] => some (String.mk lexeme, [])

/-- A JSON number lexeme: optional sign, digits, optional fraction and
exponent. -/
def parseNumberLex (cs : List Char) : Option (String × List Char) :=
  let s := (match cs with
    | '-' :: r => (['-'], r)
    | _ => (([] : List Char), cs))
  let ip := takeDigits s.2
  if ip.1.isEmpty then none
  else
    match ip.2 with
    | '.' :: r =>
      let fp := takeDigits r
      if fp.1.isEmpty then none
      else parseExpPart (s.1 ++ ip.1 ++ '.' :: fp.1) fp.2
    | _ => parseExpPart (s.1 ++ ip.1) ip.2

/-- Mode of the fuelled recursive-descent JSON reader: a value, the members
of an object, or the elements of an array. -/
inductive PMode where
  | value
  | members (acc : List (String × Json))
  | elems (acc : List Json)

/-- The recursive-descent core of the JSON.parse model, structurally
recursive on a fuel argument so that it evaluates inside the kernel. -/
def parseCore : Nat → PMode → List Char → Option (Json × List Char)
  | 0, _, _ => none
  | Nat.succ fuel, PMode.value, cs =>
    (match dropWs cs with
     | '{' :: rest =>
       (match dropWs rest with
        | '}' :: rest2 => some (Json.obj [], rest2)
        | cs2 => parseCore fuel (PMode.members []) cs2)
     | '[' :: rest =>
       (match dropWs rest with
        | ']' :: rest2 => some (Json.arr [], rest2)
        | cs2 => parseCore fuel (PMode.elems []) cs2)
     | '"' :: rest => (parseStringBody [] rest).map (fun p => (Json.str p.1, p.2))
     | 't' :: 'r' :: 'u' :: 'e' :: rest => some (Json.bool true, rest)
     | 'f' :: 'a' :: 'l' :: 's' :: 'e' :: rest => some (Json.bool false, rest)
     | 'n' :: 'u' :: 'l' :: 'l' :: rest => some (Json.null, rest)
     | cs1 => (parseNumberLex cs1).map (fun p => (Json.num p.1, p.2)))
  | Nat.succ fuel, PMode.members acc, cs =>
    (match dropWs cs with
     | '"' :: rest =>
       (match parseStringBody [] rest with
        | none => none
        | some (key, rest2) =>
          match dropWs rest2 with
          | ':' :: rest3 =>
            (match parseCore fuel PMode.value rest3 with
             | none => none
             | some (v, rest4) =>
               match dropWs rest4 with
               | ',' :: rest5 => parseCore fuel (PMode.members (acc ++ [(key, v)])) rest5
               | '}' :: rest5 => some (Json.obj (acc ++ [(key, v)]), rest5)
               | _ => none)
          | _ => none)
     | _ => none)
  | Nat.succ fuel, PMode.elems acc, cs =>
    (match parseCore fuel PMode.value cs with
     | none => none
     | some (v, rest) =>
       match dropWs rest with
       | ',' :: rest2 => parseCore fuel (PMode.elems (acc ++ [v])) rest2
       | ']' :: rest2 => some (Json.arr (acc ++ [v]), rest2)
       | _ => none)

/-- The JSON.parse model: parse one value and require only trailing
whitespace after it. -/
def Json.parse (s : String) : Option Json :=
  let cs := s.toList
  match parseCore (cs.length + 1) PMode.value cs with
  | some (v, rest) => if dropWs rest = [] then some v else none
  | none => none

/-- JS property access j.k on a parsed value: object field lookup,
undefined (none) elsewhere. -/
def Json.getField : Json → String → Option Json
  | Json.obj fields, k => (fields.find? (fun f => f.1 = k)).map (fun f => f.2)
  | _, _ => none

/-- A parsed value viewed as a string, none when it is not one. -/
def jsonAsStr : Json → Option String
  | Json.str s => some s
  | _ => none

/-- The projection of a parsed record onto the fields the store ever reads:
type, content, node.node_id (via optional chaining) and stream_type. -/
def msgOfJson (j : Json) : ChatMessage :=
  { type := (j.getField "type").bind jsonAsStr
    content := (j.getField "content").bind jsonAsStr
    node_id := ((j.getField "node").bind (fun n => n.getField "node_id")).bind jsonAsStr
    stream_type := (j.getField "stream_type").bind jsonAsStr }

/-- The marker the stream loop filters lines on. -/
def dataMarker : List Char := "data: ".toList

/-- JS chunk.split of the stream loop, specialized to the blank-line
record delimiter: leftmost-first, keeping empty pieces. -/
def splitBlankAux : List Char → List Char → List (List Char)
  | acc, '\n' :: '\n' :: rest => acc.reverse :: splitBlankAux [] rest
  | acc, c :: rest => splitBlankAux (c :: acc) rest
  | acc, [] => [acc.reverse]

/-- The lines a single read's chunk contributes, per the stream loop:
split on the blank-line delimiter, keep lines whose trimmed form starts
with the data prefix.  No text is carried over between reads. -/
def chunkLines (chunk : String) : List (List Char) :=
  (splitBlankAux [] chunk.toList).filter (fun l => dataMarker.isPrefixOf (jsTrim l))

/-- The body of the for-loop over a chunk's lines: strip the six-character
prefix, parse the JSON; token fragments go through streamMessage, anything
else through addChatMessage; a parse failure is logged and dropped. -/
def processLine (st : StoreState) (line : List Char) : StoreState :=
  let jsonStr := String.mk (line.drop 6)
  match Json.parse jsonStr with
  | some parsedJson =>
    let m := msgOfJson parsedJson
    if m.stream_type = some "token" then streamMessage st m
    else addChatMessage st m
  | none => st

/-- One iteration of the read loop, applied to the decoded text of one
read. -/
def processChunk (st : StoreState) (chunk : String) : StoreState :=
  (chunkLines chunk).foldl processLine st

/-- The whole read loop over the decoded chunks of a stream body. -/
def processStream (st : StoreState) (chunks : List String) : StoreState :=
  chunks.foldl processChunk st

/-- Outcome of the fetch in callInvokeAPI: the transport either fails
outright, or delivers a response with a status, a flag telling whether its
body reads as JSON (for the 422 branch), and an optional streamed body
given as the decoded text chunks of successive reads. -/
inductive FetchOutcome where
  | failure
  | response (status : Nat) (jsonBodyParses : Bool) (body : Option (List String))

/-- The fetch Response.ok flag: status in the 2xx range. -/
def respOk (status : Nat) : Bool := 200 ≤ status ∧ status ≤ 299

/-- The error message the 422 branch appends. -/
def configErrorMessage : ChatMessage :=
  { type := some "error"
    content := some "The workflow configuration is invalid. Check the browser console for details."
    node_id := none
    stream_type := none }

/-- The error message the catch branch appends. -/
def transportErrorMessage : ChatMessage :=
  { type := some "error"
    content := some "Failed to get response from the server."
    node_id := none
    stream_type := none }

/-- callInvokeAPI from api.ts as a total state transformer.  Status 422
with a JSON body appends the configuration error (the body is only logged);
a 422 whose body fails to read as JSON throws inside the try and lands in
the catch, like a fetch rejection or a non-OK/missing-body response, all of
which append the transport error; otherwise the streamed body is processed.
Totality embodies the try/catch: no outcome escapes as an exception. -/
def callInvokeAPI (outcome : FetchOutcome) (st : StoreState) : StoreState :=
  match outcome with
  | FetchOutcome.failure => addChatMessage st transportErrorMessage
  | FetchOutcome.response status jsonBodyParses body =>
    if status = 422 then
      if jsonBodyParses then addChatMessage st configErrorMessage
      else addChatMessage st transportErrorMessage
    else if ¬ respOk status ∨ body = none then addChatMessage st transportErrorMessage
    else processStream st (body.getD [])

lemma getLast_concat_eq {α : Type} (msgs : List α) (a : α) (h : msgs ++ [a] ≠ []) :
    (msgs ++ [a]).getLast h = a := by
  rw [List.getLast_append_of_ne_nil (by simp)]
  simp

/-- How streamMessage acts on a history written as front part plus last
message. -/
lemma streamMessage_on_concat (st : StoreState) (msgs : List ChatMessage)
    (lastMessage chunk : ChatMessage)
    (h : st.chatMessages = msgs ++ [lastMessage]) :
    (streamMessage st chunk).chatMessages =
      if sameStream lastMessage chunk then
        msgs ++ [{ lastMessage with
                   content := jsConcat lastMessage.content chunk.content }]
      else (msgs ++ [lastMessage]) ++ [chunk] := by
  have hne : st.chatMessages ≠ [] := by simp [h]
  have hlast : st.chatMessages.getLast hne = lastMessage := by
    have h2 : st.chatMessages.getLast hne =
        (msgs ++ [lastMessage]).getLast (by simp) := by
      congr 1
    rw [h2, getLast_concat_eq]
  have hdrop : st.chatMessages.dropLast = msgs := by
    rw [h]; exact List.dropLast_concat
  unfold streamMessage
  rw [dif_neg hne]
  by_cases hs : sameStream lastMessage chunk
  · rw [if_pos (hlast ▸ hs), if_pos hs]
    simp [hlast, hdrop]
  · rw [if_neg (hlast ▸ hs), if_neg hs]
    simp [h]

/-- C2: with a nonempty history whose last message shares the incoming
token fragment's (node id, type, streamType) triple, streamMessage replaces
the last message's content by the concatenation of old content and fragment
content, adding no message; with a differing triple it appends the fragment
as a new message. -/
theorem streamMessage_coalescing (st : StoreState) (msgs : List ChatMessage)
    (lastMessage chunk : ChatMessage)
    (h : st.chatMessages = msgs ++ [lastMessage]) :
    (sameStream lastMessage chunk →
      (streamMessage st chunk).chatMessages =
        msgs ++ [{ lastMessage with
                   content := jsConcat lastMessage.content chunk.content }] ∧
      (streamMessage st chunk).chatMessages.length = st.chatMessages.length) ∧
    (¬ sameStream lastMessage chunk →
      (streamMessage st chunk).chatMessages = st.chatMessages ++ [chunk]) := by
  have hmain := streamMessage_on_concat st msgs lastMessage chunk h
  constructor
  · intro hs
    rw [if_pos hs] at hmain
    exact ⟨hmain, by simp [hmain, h]⟩
  · intro hs
    rw [if_neg hs] at hmain
    rw [hmain, h]

/-- Witness for streamMessage_coalescing at a concrete history and
fragment. -/
theorem streamMessage_coalescing_witness :
    (streamMessage
        ⟨[], [], [⟨some "ai", some "tok", some "A", some "token"⟩]⟩
        ⟨some "ai", some "en", some "A", some "token"⟩).chatMessages =
      [⟨some "ai", some "token", some "A", some "token"⟩] := by
  have h := (streamMessage_coalescing
    ⟨[], [], [⟨some "ai", some "tok", some "A", some "token"⟩]⟩
    [] ⟨some "ai", some "tok", some "A", some "token"⟩
    ⟨some "ai", some "en", some "A", some "token"⟩ rfl).1 (by decide)
  simpa [jsConcat, jsStr] using h.1

/-- C9: every chat-history operation either appends one message at the end
(addChatMessage), appends one message or rewrites only the content field of
the last message (streamMessage), or empties the history
(clearChatMessages); messages other than the last are never touched. -/
theorem chat_history_ops_localized :
    (∀ st m, (addChatMessage st m).chatMessages = st.chatMessages ++ [m]) ∧
    (∀ st m, (streamMessage st m).chatMessages = st.chatMessages ++ [m] ∨
      ∃ msgs lastMessage c, st.chatMessages = msgs ++ [lastMessage] ∧
        (streamMessage st m).chatMessages =
          msgs ++ [{ lastMessage with content := c }]) ∧
    (∀ st, (clearChatMessages st).chatMessages = []) := by
  refine ⟨fun st m => rfl, fun st m => ?_, fun st => rfl⟩
  by_cases hne : st.chatMessages = []
  · left
    unfold streamMessage
    rw [dif_pos hne]
    simp [hne]
  · have hdecomp : st.chatMessages =
        st.chatMessages.dropLast ++ [st.chatMessages.getLast hne] :=
      (List.dropLast_concat_getLast hne).symm
    have hmain := streamMessage_on_concat st st.chatMessages.dropLast
      (st.chatMessages.getLast hne) m hdecomp
    by_cases hs : sameStream (st.chatMessages.getLast hne) m
    · right
      rw [if_pos hs] at hmain
      exact ⟨st.chatMessages.dropLast, st.chatMessages.getLast hne,
        jsConcat (st.chatMessages.getLast hne).content m.content, hdecomp, hmain⟩
    · left
      rw [if_neg hs] at hmain
      rw [hmain, ← hdecomp]

/-- Sample nodes used to exercise the definitions on concrete graphs. -/
def sStart : Node := ⟨"n-start", ⟨"User Query Input", NodeType.START, none⟩⟩

def sEnd : Node := ⟨"n-end", ⟨"Final Output", NodeType.END, none⟩⟩

def sLLM : Node := ⟨"n-llm", ⟨"LLM Agent", NodeType.LLMNode, some []⟩⟩

def sTool : Node := ⟨"n-tool", ⟨"MCP Tool", NodeType.ToolNode, some []⟩⟩

def sA2A : Node := ⟨"n-a2a", ⟨"A2A", NodeType.A2ANode, some []⟩⟩

/-- C3: the validator rejects exactly when a missing endpoint, a self-loop,
a forbidden endpoint type, a handle misuse, or an occupied exclusive handle
is present, and accepts otherwise.  Part one covers the missing-endpoint
rejection; part two characterizes the outcome when both endpoints resolve.
The "tool" and "direct" handles are the source's target-tool and
target-direct handle ids. -/
theorem isValidConnection_false_characterization :
    (∀ nodes edges c,
      (findNode nodes c.source = none ∨ findNode nodes c.target = none) →
      isValidConnection nodes edges c = false) ∧
    (∀ nodes edges c sourceNode targetNode,
      findNode nodes c.source = some sourceNode →
      findNode nodes c.target = some targetNode →
      (isValidConnection nodes edges c = false ↔
        (c.source = c.target ∨
         targetNode.data.type = NodeType.START ∨
         sourceNode.data.type = NodeType.END ∨
         targetNode.data.type = NodeType.ToolNode ∨
         (sourceNode.data.type = NodeType.ToolNode ∧
           (targetNode.data.type ≠ NodeType.LLMNode ∨
            c.targetHandle ≠ some "target-tool")) ∨
         (sourceNode.data.type ≠ NodeType.ToolNode ∧
           c.targetHandle = some "target-tool") ∨
         (c.targetHandle = some "target-tool" ∧
           ∃ e ∈ edges, some e.target = c.target ∧
             e.targetHandle = some "target-tool") ∨
         (targetNode.data.type = NodeType.LLMNode ∧
           c.targetHandle = some "target-direct" ∧
           ∃ e ∈ edges, some e.target = c.target ∧
             e.targetHandle = some "target-direct")))) := by
  constructor
  · intro nodes edges c h
    rw [isValidConnection]
    rcases h with h | h
    · rw [h]
    · rw [h]
      cases findNode nodes c.source <;> rfl
  · intro nodes edges c sourceNode targetNode hsn htn
    rw [isValidConnection, hsn, htn]
    split_ifs with h1 h2 <;>
      (simp_all [List.any_eq_true]; try tauto)

/-- Witness for the validator characterization: a self-loop on the sample
start node is rejected, and a fresh start-to-LLM edge is not covered by any
rejection clause. -/
theorem isValidConnection_false_characterization_witness :
    isValidConnection [sStart, sLLM] []
      ⟨some "n-start", some "n-start", none, none⟩ = false := by
  exact (isValidConnection_false_characterization.2 [sStart, sLLM] []
    ⟨some "n-start", some "n-start", none, none⟩ sStart sStart
    (by decide) (by decide)).mpr (Or.inl rfl)

/-- The edges occupying node target t's handle h. -/
def edgesOn (edges : List Edge) (t : String) (h : String) : List Edge :=
  edges.filter (fun e => e.target = t ∧ e.targetHandle = some h)

/-- The structural graph invariant of the spec: every LLM node has at most
one occupant on each of its target-direct and target-tool handles, and no
edge has a Tool-typed or START-typed target or an END-typed source. -/
def GraphInvariant (nodes : List Node) (edges : List Edge) : Prop :=
  (∀ n ∈ nodes, n.data.type = NodeType.LLMNode →
    (edgesOn edges n.id "target-direct").length ≤ 1 ∧
    (edgesOn edges n.id "target-tool").length ≤ 1) ∧
  (∀ e ∈ edges, ∀ n ∈ nodes,
    (n.id = e.target →
      n.data.type ≠ NodeType.ToolNode ∧ n.data.type ≠ NodeType.START) ∧
    (n.id = e.source → n.data.type ≠ NodeType.END))

instance (nodes : List Node) (edges : List Edge) :
    Decidable (GraphInvariant nodes edges) := by
  unfold GraphInvariant edgesOn; infer_instance

/-- What a successful validation guarantees: both endpoints resolve, the
endpoint types are admissible, and any exclusive handle the edge would take
is currently empty. -/
lemma isValid_true_facts (nodes : List Node) (edges : List Edge)
    (c : Connection) (h : isValidConnection nodes edges c = true) :
    ∃ sourceNode targetNode,
      findNode nodes c.source = some sourceNode ∧
      findNode nodes c.target = some targetNode ∧
      targetNode.data.type ≠ NodeType.START ∧
      sourceNode.data.type ≠ NodeType.END ∧
      targetNode.data.type ≠ NodeType.ToolNode ∧
      (c.targetHandle = some "target-tool" →
        ∀ e ∈ edges,
          ¬(some e.target = c.target ∧ e.targetHandle = some "target-tool")) ∧
      (targetNode.data.type = NodeType.LLMNode →
        c.targetHandle = some "target-direct" →
        ∀ e ∈ edges,
          ¬(some e.target = c.target ∧
            e.targetHandle = some "target-direct")) := by
  rw [isValidConnection] at h
  rcases hsn : findNode nodes c.source with _ | sourceNode
  · rw [hsn] at h; simp at h
  rcases htn : findNode nodes c.target with _ | targetNode
  · rw [hsn, htn] at h; simp at h
  rw [hsn, htn] at h
  refine ⟨sourceNode, targetNode, rfl, rfl, ?_⟩
  split_ifs at h with h1 h2 <;> try simp at h
  obtain ⟨⟨hst, hend⟩, htool, _hmix1, _hmix2, hdir⟩ := h
  refine ⟨hst, hend, htool, ?_, ?_⟩
  · intro hth e he hcontra
    apply h2
    refine ⟨hth, ?_⟩
    simp only [List.any_eq_true, decide_eq_true_eq]
    exact ⟨e, he, hcontra⟩
  · intro hllm hdh e he hcontra
    rcases hdir with h7 | h7 | h7
    · exact h7 hllm
    · exact h7 hdh
    · exact (h7 e he hcontra.1) hcontra.2

lemma findNode_eq (nodes : List Node) (i : Option String) (n : Node)
    (h : findNode nodes i = some n) : i = some n.id ∧ n ∈ nodes := by
  unfold findNode at h
  exact ⟨of_decide_eq_true
      (List.find?_some (p := fun m : Node => decide (i = some m.id)) h),
    List.mem_of_find?_eq_some h⟩

lemma node_id_inj (nodes : List Node) (hnd : (nodes.map Node.id).Nodup)
    {m n : Node} (hm : m ∈ nodes) (hn : n ∈ nodes) (h : m.id = n.id) : m = n :=
  List.inj_on_of_nodup_map hnd hm hn h

lemma edgesOn_concat (edges : List Edge) (e : Edge) (t h : String) :
    edgesOn (edges ++ [e]) t h = edgesOn edges t h ++ edgesOn [e] t h := by
  simp [edgesOn]

/-- Adding one validator-approved edge preserves the graph invariant. -/
lemma addValidEdge_preserves (nodes : List Node) (edges : List Edge)
    (c : Connection) (fid : String)
    (hnd : (nodes.map Node.id).Nodup)
    (hv : isValidConnection nodes edges c = true)
    (hinv : GraphInvariant nodes edges) :
    GraphInvariant nodes (addEdgeRF (onConnectEdge nodes c fid) edges) := by
  obtain ⟨sn, tn, hsn, htn, hst, hend, htool, hoccT, hoccD⟩ :=
    isValid_true_facts nodes edges c hv
  obtain ⟨hcs, hsmem⟩ := findNode_eq _ _ _ hsn
  obtain ⟨hct, htmem⟩ := findNode_eq _ _ _ htn
  have hneT : (onConnectEdge nodes c fid).target = tn.id := by
    simp [onConnectEdge, hct]
  have hneS : (onConnectEdge nodes c fid).source = sn.id := by
    simp [onConnectEdge, hcs]
  have hneH : (onConnectEdge nodes c fid).targetHandle = c.targetHandle := rfl
  unfold addEdgeRF
  split
  · exact hinv
  · constructor
    · intro n hn hllm
      have hold := hinv.1 n hn hllm
      have key : ∀ hdl : String,
          (onConnectEdge nodes c fid).target = n.id →
          (onConnectEdge nodes c fid).targetHandle = some hdl →
          c.targetHandle = some hdl →
          (∀ e ∈ edges,
            ¬(some e.target = c.target ∧ e.targetHandle = some hdl)) →
          (edgesOn (edges ++ [onConnectEdge nodes c fid]) n.id hdl).length ≤ 1 := by
        intro hdl hmt hmh hch hocc
        have hempty : edgesOn edges n.id hdl = [] := by
          unfold edgesOn
          rw [List.filter_eq_nil_iff]
          intro e he
          simp only [decide_eq_true_eq, not_and]
          intro het heh
          exact absurd ⟨by rw [het, ← hmt, hneT, ← hct], heh⟩ (hocc e he)
        rw [edgesOn_concat, hempty]
        simp [edgesOn, hmt, hmh]
      have hntn : n.id = tn.id → n = tn := fun h =>
        node_id_inj nodes hnd hn htmem h
      constructor
      · by_cases hmt : (onConnectEdge nodes c fid).target = n.id
        · by_cases hmh : c.targetHandle = some "target-direct"
          · refine key "target-direct" hmt (by rw [hneH, hmh]) hmh ?_
            have htn_llm : tn.data.type = NodeType.LLMNode := by
              have := hntn (by rw [← hmt, hneT])
              rw [← this]; exact hllm
            exact hoccD htn_llm hmh
          · rw [edgesOn_concat]
            have : edgesOn [onConnectEdge nodes c fid] n.id "target-direct" = [] := by
              simp only [edgesOn, List.filter, hneH]
              simp [hmh]
            rw [this, List.append_nil]
            exact hold.1
        · rw [edgesOn_concat]
          have : edgesOn [onConnectEdge nodes c fid] n.id "target-direct" = [] := by
            simp [edgesOn, hmt]
          rw [this, List.append_nil]
          exact hold.1
      · by_cases hmt : (onConnectEdge nodes c fid).target = n.id
        · by_cases hmh : c.targetHandle = some "target-tool"
          · exact key "target-tool" hmt (by rw [hneH, hmh]) hmh (hoccT hmh)
          · rw [edgesOn_concat]
            have : edgesOn [onConnectEdge nodes c fid] n.id "target-tool" = [] := by
              simp only [edgesOn, List.filter, hneH]
              simp [hmh]
            rw [this, List.append_nil]
            exact hold.2
        · rw [edgesOn_concat]
          have : edgesOn [onConnectEdge nodes c fid] n.id "target-tool" = [] := by
            simp [edgesOn, hmt]
          rw [this, List.append_nil]
          exact hold.2
    · intro e he n hn
      rcases List.mem_append.mp he with he | he
      · exact hinv.2 e he n hn
      · have hee : e = onConnectEdge nodes c fid := by simpa using he
        subst hee
        constructor
        · intro hidt
          have : n = tn := node_id_inj nodes hnd hn htmem (by rw [hidt, hneT])
          rw [this]
          exact ⟨htool, hst⟩
        · intro hids
          have : n = sn := node_id_inj nodes hnd hn hsmem (by rw [hids, hneS])
          rw [this]
          exact hend

lemma gatedConnect_nodes (st : StoreState) (c : Connection) (fid : String) :
    (gatedConnect st c fid).nodes = st.nodes := by
  unfold gatedConnect onConnect
  split <;> rfl

lemma gatedConnect_preserves (st : StoreState) (c : Connection) (fid : String)
    (hnd : (st.nodes.map Node.id).Nodup)
    (hinv : GraphInvariant st.nodes st.edges) :
    GraphInvariant (gatedConnect st c fid).nodes (gatedConnect st c fid).edges := by
  unfold gatedConnect onConnect
  by_cases hv : isValidConnection st.nodes st.edges c = true
  · rw [if_pos hv]
    exact addValidEdge_preserves st.nodes st.edges c fid hnd hv hinv
  · rw [if_neg hv]
    exact hinv

/-- C4: from any graph satisfying the invariant (with the data model's
unique node ids), every sequence of validator-gated connect calls keeps
every LLM node at fan-in at most one on each of its direct and tool
handles, and admits no Tool-typed target, END-typed source or START-typed
target on any edge. -/
theorem gatedConnect_sequence_preserves_invariant (st : StoreState)
    (steps : List (Connection × String))
    (hnd : (st.nodes.map Node.id).Nodup)
    (hinv : GraphInvariant st.nodes st.edges) :
    GraphInvariant
      (steps.foldl (fun s p => gatedConnect s p.1 p.2) st).nodes
      (steps.foldl (fun s p => gatedConnect s p.1 p.2) st).edges := by
  induction steps generalizing st with
  | nil => exact hinv
  | cons p rest ih =>
    simp only [List.foldl_cons]
    exact ih (gatedConnect st p.1 p.2)
      (by rw [gatedConnect_nodes]; exact hnd)
      (gatedConnect_preserves st p.1 p.2 hnd hinv)

/-- Witness for the invariant preservation: two gated connects (START→LLM
on the direct handle, then Tool→LLM on the tool handle) applied to a
concrete well-formed graph, with the invariant holding afterwards. -/
theorem gatedConnect_sequence_preserves_invariant_witness :
    GraphInvariant
      (([(⟨some "n-start", some "n-llm", none, some "target-direct"⟩, "e1"),
         (⟨some "n-tool", some "n-llm", none, some "target-tool"⟩, "e2")] :
          List (Connection × String)).foldl
        (fun s p => gatedConnect s p.1 p.2)
        ⟨[sStart, sEnd, sLLM, sTool], [], []⟩).nodes
      (([(⟨some "n-start", some "n-llm", none, some "target-direct"⟩, "e1"),
         (⟨some "n-tool", some "n-llm", none, some "target-tool"⟩, "e2")] :
          List (Connection × String)).foldl
        (fun s p => gatedConnect s p.1 p.2)
        ⟨[sStart, sEnd, sLLM, sTool], [], []⟩).edges :=
  gatedConnect_sequence_preserves_invariant
    ⟨[sStart, sEnd, sLLM, sTool], [], []⟩
    [(⟨some "n-start", some "n-llm", none, some "target-direct"⟩, "e1"),
     (⟨some "n-tool", some "n-llm", none, some "target-tool"⟩, "e2")]
    (by decide) (by decide)

/-- C5: every serialized node carries the node's type tag, id and name;
the param_dict key is present exactly for LLM, Tool and A2A nodes, where it
has the type's prescribed shape, and is entirely absent (none) for START
and END nodes, whose payload is exactly the three-field record. -/
theorem serializeNode_payload_shape (node : Node) :
    (serializeNode node).node_id = node.id ∧
    (serializeNode node).name = node.data.name ∧
    (serializeNode node).type = node.data.type.toStr ∧
    ((serializeNode node).param_dict = none ↔
      node.data.type = NodeType.START ∨ node.data.type = NodeType.END) ∧
    (node.data.type = NodeType.START ∨ node.data.type = NodeType.END →
      serializeNode node =
        { type := node.data.type.toStr, node_id := node.id,
          name := node.data.name, param_dict := none }) ∧
    (node.data.type = NodeType.LLMNode →
      ∃ a b c d e,
        (serializeNode node).param_dict = some (ParamDict.llm a b c d e)) ∧
    (node.data.type = NodeType.ToolNode →
      ∃ a, (serializeNode node).param_dict = some (ParamDict.tool a)) ∧
    (node.data.type = NodeType.A2ANode →
      ∃ a, (serializeNode node).param_dict = some (ParamDict.a2a a)) := by
  rcases node with ⟨i, nm, ty, ps⟩
  cases ty <;>
    simp [serializeNode, NodeType.toStr]

/-- Witness for the payload shapes: the sample START node serializes with
no param_dict while the sample LLM node serializes with one. -/
theorem serializeNode_payload_shape_witness :
    (serializeNode sStart).param_dict = none ∧
    (serializeNode sLLM).param_dict ≠ none := by
  constructor
  · exact ((serializeNode_payload_shape sStart).2.2.2.1).mpr (Or.inl rfl)
  · obtain ⟨a, b, c, d, e, h⟩ :=
      (serializeNode_payload_shape sLLM).2.2.2.2.2.1 rfl
    simp [h]

/-- C8: deleting one node removes that node and exactly the edges touching
it (given the data model's unique edge ids), and deleting a node absent
from a graph whose edges all resolve their endpoints changes nothing. -/
theorem deleteElements_node_cascade (st : StoreState) (n : Node)
    (hnd : (st.edges.map Edge.id).Nodup) :
    (deleteElements st [n] []).nodes =
      st.nodes.filter (fun m => ¬ n.id = m.id) ∧
    (deleteElements st [n] []).edges =
      st.edges.filter (fun e => ¬ (e.source = n.id ∨ e.target = n.id)) ∧
    ((∀ m ∈ st.nodes, m.id ≠ n.id) →
      (∀ e ∈ st.edges, (∃ m ∈ st.nodes, m.id = e.source) ∧
        (∃ m ∈ st.nodes, m.id = e.target)) →
      (deleteElements st [n] []).nodes = st.nodes ∧
      (deleteElements st [n] []).edges = st.edges) := by
  have hnodes : (deleteElements st [n] []).nodes =
      st.nodes.filter (fun m => ¬ n.id = m.id) := by
    unfold deleteElements
    apply List.filter_congr
    intro m _
    simp
  have hedges : (deleteElements st [n] []).edges =
      st.edges.filter (fun e => ¬ (e.source = n.id ∨ e.target = n.id)) := by
    unfold deleteElements
    apply List.filter_congr
    intro e he
    by_cases hx : e.source = n.id ∨ e.target = n.id
    · simp [hx]
      refine ⟨e, List.mem_filter.mpr ⟨he, ?_⟩, rfl⟩
      simp only [List.any_cons, List.any_nil, Bool.or_false,
        decide_eq_true_eq]
      rcases hx with h | h
      · exact Or.inl h.symm
      · exact Or.inr h.symm
    · simp [hx]
      intro x hxmem
      obtain ⟨hxs, hp⟩ := List.mem_filter.mp hxmem
      intro hxe
      have hxeq : x = e := List.inj_on_of_nodup_map hnd hxs he hxe
      subst hxeq
      simp only [List.any_cons, List.any_nil, Bool.or_false,
        decide_eq_true_eq] at hp
      rcases hp with hp | hp
      · exact hx (Or.inl hp.symm)
      · exact hx (Or.inr hp.symm)
  refine ⟨hnodes, hedges, fun habsent hresolve => ⟨?_, ?_⟩⟩
  · rw [hnodes]
    apply List.filter_eq_self.mpr
    intro m hm
    simpa using fun hcontra => (habsent m hm) hcontra.symm
  · rw [hedges]
    apply List.filter_eq_self.mpr
    intro e he
    obtain ⟨⟨ms, hms, hmse⟩, ⟨mt, hmt, hmte⟩⟩ := hresolve e he
    simp only [decide_eq_true_eq, not_or, decide_not]
    have h1 : e.source ≠ n.id := fun hc => habsent ms hms (hmse.trans hc)
    have h2 : e.target ≠ n.id := fun hc => habsent mt hmt (hmte.trans hc)
    simp [h1, h2]

/-- Witness for node deletion: removing the sample LLM node from a concrete
two-node, one-edge graph leaves only the start node and no edges. -/
theorem deleteElements_node_cascade_witness :
    (deleteElements
        ⟨[sStart, sLLM],
         [⟨"e1", "n-start", "n-llm", none, some "target-direct", "default", true⟩],
         []⟩ [sLLM] []).nodes = [sStart] ∧
    (deleteElements
        ⟨[sStart, sLLM],
         [⟨"e1", "n-start", "n-llm", none, some "target-direct", "default", true⟩],
         []⟩ [sLLM] []).edges = [] := by
  have h := deleteElements_node_cascade
    ⟨[sStart, sLLM],
     [⟨"e1", "n-start", "n-llm", none, some "target-direct", "default", true⟩],
     []⟩ sLLM (by decide)
  exact ⟨h.1.trans (by decide), h.2.1.trans (by decide)⟩

lemma mapM_some_of_forall_some {α β : Type} (f : α → Option β) :
    ∀ l : List α, (∀ a ∈ l, (f a).isSome) →
      ∃ ys : List β, l.mapM f = some ys ∧ ys.length = l.length := by
  intro l
  induction l with
  | nil => exact fun _ => ⟨[], rfl, rfl⟩
  | cons x xs ih =>
    intro h
    obtain ⟨y, hy⟩ := Option.isSome_iff_exists.mp (h x (List.mem_cons_self x xs))
    obtain ⟨ys, hys, hlen⟩ := ih (fun a ha => h a (List.mem_cons_of_mem x ha))
    refine ⟨y :: ys, ?_, by simp [hlen]⟩
    rw [List.mapM_cons, hy, hys]
    rfl

/-- C10: when every edge's source id resolves to a node in the graph, the
serializer's per-edge source lookup always succeeds, the connections list
is built totally (one entry per edge), and each entry's type is
tool-connection exactly when the resolved source node is a Tool node, and
direct otherwise. -/
theorem serializeConnections_total (nodes : List Node) (edges : List Edge)
    (h : ∀ e ∈ edges, ∃ m ∈ nodes, m.id = e.source) :
    (∃ cs, serializeConnections nodes edges = some cs ∧
      cs.length = edges.length) ∧
    (∀ e ∈ edges, ∃ sourceNode c,
      nodes.find? (fun m => m.id = e.source) = some sourceNode ∧
      serializeEdge nodes e = some c ∧
      (c.type = "tool-connection" ↔
        sourceNode.data.type = NodeType.ToolNode) ∧
      (c.type = "direct" ↔ sourceNode.data.type ≠ NodeType.ToolNode) ∧
      c.connection_id = e.id ∧ c.source_node_id = e.source ∧
      c.destination_node_id = e.target) := by
  have hfind : ∀ e ∈ edges, ∃ sourceNode,
      nodes.find? (fun m => m.id = e.source) = some sourceNode := by
    intro e he
    obtain ⟨m, hm, hme⟩ := h e he
    have : (nodes.find? (fun m => m.id = e.source)).isSome :=
      List.find?_isSome.mpr ⟨m, hm, by simp [hme]⟩
    exact Option.isSome_iff_exists.mp this
  constructor
  · apply mapM_some_of_forall_some
    intro e he
    obtain ⟨sourceNode, hsn⟩ := hfind e he
    rw [serializeEdge, hsn]
    rfl
  · intro e he
    obtain ⟨sourceNode, hsn⟩ := hfind e he
    refine ⟨sourceNode,
      { type := if sourceNode.data.type = NodeType.ToolNode
                then "tool-connection" else "direct"
        connection_id := e.id
        source_node_id := e.source
        destination_node_id := e.target },
      hsn, by rw [serializeEdge, hsn], ?_, ?_, rfl, rfl, rfl⟩
    · by_cases ht : sourceNode.data.type = NodeType.ToolNode <;>
        simp [ht]
    · by_cases ht : sourceNode.data.type = NodeType.ToolNode <;>
        simp [ht]

/-- Witness for the serializer's connection totality on a concrete
tool-into-LLM graph. -/
theorem serializeConnections_total_witness :
    ∃ cs, serializeConnections [sTool, sLLM]
        [⟨"e1", "n-tool", "n-llm", none, some "target-tool", "dashed", false⟩]
        = some cs ∧
      cs.length = 1 :=
  (serializeConnections_total [sTool, sLLM]
    [⟨"e1", "n-tool", "n-llm", none, some "target-tool", "dashed", false⟩]
    (by decide)).1

/-- C1 (divergence): the read loop keeps no carry-over buffer between
reads, so a record split across two reads is lost entirely: the first
fragment fails to parse and is dropped, the second no longer carries the
data prefix and is filtered out.  Zero chat messages result, while the same
record arriving within one read yields exactly one. -/
theorem split_record_lost_across_reads :
    (processStream ⟨[], [], []⟩
        ["data: \x7b\"ty", "pe\":\"ai\"\x7d\n\n"]).chatMessages.length = 0 ∧
    (processStream ⟨[], [], []⟩
        ["data: \x7b\"type\":\"ai\"\x7d\n\n"]).chatMessages.length = 1 := by
  constructor <;> decide

/-- C6: on a 422 response, on any non-OK status or missing body, and on a
transport failure, callInvokeAPI appends exactly one error-typed chat
message, leaves the prior chat history as a prefix and the graph's nodes
and edges untouched; the embedding is a total function, reflecting that the
try/catch lets no such failure escape as an exception. -/
theorem invoke_failure_single_error (st : StoreState) (o : FetchOutcome)
    (h : o = FetchOutcome.failure ∨
      ∃ s j b, o = FetchOutcome.response s j b ∧
        (s = 422 ∨ respOk s = false ∨ b = none)) :
    ∃ err : ChatMessage,
      (callInvokeAPI o st).chatMessages = st.chatMessages ++ [err] ∧
      err.type = some "error" ∧
      (callInvokeAPI o st).nodes = st.nodes ∧
      (callInvokeAPI o st).edges = st.edges := by
  rcases h with h | ⟨s, j, b, h, hc⟩
  · subst h
    exact ⟨transportErrorMessage, rfl, rfl, rfl, rfl⟩
  · subst h
    have hbr : callInvokeAPI (FetchOutcome.response s j b) st =
        (if s = 422 then
          if j then addChatMessage st configErrorMessage
          else addChatMessage st transportErrorMessage
        else if ¬ respOk s = true ∨ b = none then
          addChatMessage st transportErrorMessage
        else processStream st (b.getD [])) := rfl
    rw [hbr]
    by_cases h422 : s = 422
    · rw [if_pos h422]
      cases j
      · exact ⟨transportErrorMessage, rfl, rfl, rfl, rfl⟩
      · exact ⟨configErrorMessage, rfl, rfl, rfl, rfl⟩
    · have hfail : ¬ respOk s = true ∨ b = none := by
        rcases hc with hc | hc | hc
        · exact absurd hc h422
        · exact Or.inl (by rw [hc]; simp)
        · exact Or.inr hc
      rw [if_neg h422, if_pos hfail]
      exact ⟨transportErrorMessage, rfl, rfl, rfl, rfl⟩

/-- Witness for the failure handling: a 422 response with a JSON body on a
concrete store appends exactly the configuration error message. -/
theorem invoke_failure_single_error_witness :
    ∃ err : ChatMessage,
      (callInvokeAPI (FetchOutcome.response 422 true none)
          ⟨[sStart], [], []⟩).chatMessages =
        ([] : List ChatMessage) ++ [err] ∧
      err.type = some "error" ∧
      (callInvokeAPI (FetchOutcome.response 422 true none)
          ⟨[sStart], [], []⟩).nodes = [sStart] ∧
      (callInvokeAPI (FetchOutcome.response 422 true none)
          ⟨[sStart], [], []⟩).edges = [] :=
  invoke_failure_single_error ⟨[sStart], [], []⟩
    (FetchOutcome.response 422 true none)
    (Or.inr ⟨422, true, none, rfl, Or.inl rfl⟩)

/-- C7: a line whose payload fails to parse as JSON produces no chat
message and leaves the state unchanged, and a stream of lines containing it
processes exactly as the same stream without it; the failure is local, not
fatal. -/
theorem malformed_record_dropped (st : StoreState)
    (pre post : List (List Char)) (bad : List Char)
    (hparse : Json.parse (String.mk (bad.drop 6)) = none) :
    processLine st bad = st ∧
    (pre ++ bad :: post).foldl processLine st =
      (pre ++ post).foldl processLine st := by
  have hline : ∀ s, processLine s bad = s := by
    intro s
    simp only [processLine, hparse]
  refine ⟨hline st, ?_⟩
  induction pre generalizing st with
  | nil => simp [hline]
  | cons x xs ih =>
    simp only [List.cons_append, List.foldl_cons]
    exact ih (processLine st x)

/-- Witness for malformed-record recovery: dropping a concrete unparsable
record between two well-formed ones gives the same final history as the
stream without it. -/
theorem malformed_record_dropped_witness :
    processLine ⟨[], [], []⟩ ("data: \x7b\"ty".toList) = ⟨[], [], []⟩ ∧
    (["data: \x7b\"type\":\"user\"\x7d".toList,
      "data: \x7b\"ty".toList,
      "data: \x7b\"type\":\"ai\"\x7d".toList].foldl processLine
        ⟨[], [], []⟩) =
      (["data: \x7b\"type\":\"user\"\x7d".toList,
        "data: \x7b\"type\":\"ai\"\x7d".toList].foldl processLine
          ⟨[], [], []⟩) := by
  have h := malformed_record_dropped ⟨[], [], []⟩
    ["data: \x7b\"type\":\"user\"\x7d".toList]
    ["data: \x7b\"type\":\"ai\"\x7d".toList]
    ("data: \x7b\"ty".toList) rfl
  exact ⟨(malformed_record_dropped ⟨[], [], []⟩ [] []
    ("data: \x7b\"ty".toList) rfl).1, h.2⟩

end AWB
